import Mathlib

/-!
A verification development for the hybrid RAG indexing engine of
`servers/rag.py`: the feature-hashed BM25 sparse encoder, the hybrid versus
dense-only search planning, the deterministic chunk-id construction
(UUIDv5 over SHA-1 of a name built from the SHA-256 content digest), the
SQLite index ledger, and the per-document indexing orchestration.

Python floats are modelled by exact rationals, with `x ** 0.5` modelled by
`Real.sqrt`; machine integers do not overflow in the source (Python ints),
so natural numbers and rationals are used throughout, with explicit
`% 2 ^ 32` where the hash algorithms require 32-bit wraparound.
-/

namespace Rag

/-! ### Byte and hex utilities -/

/-- Big-endian integer value of a byte list (Python `int.from_bytes(b, "big")`). -/
def fromBytesBE (bs : List ℕ) : ℕ := bs.foldl (fun a b => a * 256 + b) 0

/-- Little-endian integer value of a byte list (Python `int.from_bytes(b, "little")`). -/
def fromBytesLE (bs : List ℕ) : ℕ := bs.foldr (fun b a => a * 256 + b) 0

/-- Fixed-width lowercase hexadecimal digits of `n`, most significant first
(Python zero-padded `%x` formatting, as used by `hexdigest` and `str(UUID)`). -/
def toHexFixed : ℕ → ℕ → List Char
  | 0, _ => []
  | k + 1, n => toHexFixed k (n / 16) ++ [Nat.digitChar (n % 16)]

/-- Numeric value of one lowercase hex digit character. -/
def hexDigitVal (c : Char) : ℕ :=
  if c.toNat ≤ 57 then c.toNat - 48 else c.toNat - 87

/-- Integer value of a big-endian string of hex digit characters. -/
def hexVal (cs : List Char) : ℕ := cs.foldl (fun a c => a * 16 + hexDigitVal c) 0

/-- The 32-bit modulus used by both hash compressions. -/
def w32 : ℕ := 2 ^ 32

/-- 32-bit right rotation. -/
def rotr32 (x n : ℕ) : ℕ := ((x >>> n) ||| (x <<< (32 - n))) % w32

/-- 32-bit left rotation. -/
def rotl32 (x n : ℕ) : ℕ := ((x <<< n) ||| (x >>> (32 - n))) % w32

/-- The four big-endian bytes of a 32-bit word. -/
def bytesOfWord32 (w : ℕ) : List ℕ :=
  [w / 2 ^ 24 % 256, w / 2 ^ 16 % 256, w / 2 ^ 8 % 256, w % 256]

/-- Byte encoding of a string (`str.encode()`); every string hashed by the
engine (alphanumeric tokens, hex digests, decimal ordinals) is ASCII, where
UTF-8 encoding is the identity on code points. -/
def strBytes (s : String) : List ℕ := s.data.map Char.toNat

/-! ### SHA padding and block splitting (shared by SHA-1 and SHA-256) -/

/-- Merkle-Damgard padding: append `0x80`, zero bytes up to 56 mod 64, then
the 64-bit big-endian bit length of the message. -/
def shaPad (msg : List ℕ) : List ℕ :=
  let l := msg.length
  let k := (120 - (l + 1) % 64) % 64
  let bl := 8 * l
  msg ++ 128 :: List.replicate k 0 ++
    [bl / 2 ^ 56 % 256, bl / 2 ^ 48 % 256, bl / 2 ^ 40 % 256, bl / 2 ^ 32 % 256,
     bl / 2 ^ 24 % 256, bl / 2 ^ 16 % 256, bl / 2 ^ 8 % 256, bl % 256]

/-- Split a byte list into 64-byte blocks; the fuel argument (instantiated
with the length) keeps the recursion structural. -/
def blocks64 : ℕ → List ℕ → List (List ℕ)
  | 0, _ => []
  | _, [] => []
  | fuel + 1, bs => bs.take 64 :: blocks64 fuel (bs.drop 64)

/-- The sixteen big-endian 32-bit words of one 64-byte block. -/
def blockWords (block : List ℕ) : List ℕ :=
  (List.range 16).map (fun i => fromBytesBE ((block.drop (4 * i)).take 4))

/-! ### SHA-256 (`hashlib.sha256`) -/

/-- The SHA-256 round constants. -/
def sha256K : List ℕ :=
  [1116352408, 1899447441, 3049323471, 3921009573, 961987163, 1508970993,
   2453635748, 2870763221, 3624381080, 310598401, 607225278, 1426881987,
   1925078388, 2162078206, 2614888103, 3248222580, 3835390401, 4022224774,
   264347078, 604807628, 770255983, 1249150122, 1555081692, 1996064986,
   2554220882, 2821834349, 2952996808, 3210313671, 3336571891, 3584528711,
   113926993, 338241895, 666307205, 773529912, 1294757372, 1396182291,
   1695183700, 1986661051, 2177026350, 2456956037, 2730485921, 2820302411,
   3259730800, 3345764771, 3516065817, 3600352804, 4094571909, 275423344,
   430227734, 506948616, 659060556, 883997877, 958139571, 1322822218,
   1537002063, 1747873779, 1955562222, 2024104815, 2227730452, 2361852424,
   2428436474, 2756734187, 3204031479, 3329325298]

/-- The SHA-256 initial hash value. -/
def sha256Init : List ℕ :=
  [1779033703, 3144134277, 1013904242, 2773480762,
   1359893119, 2600822924, 528734635, 1541459225]

/-- Extend sixteen message-schedule words to sixty-four. -/
def sha256Extend (ws : List ℕ) : List ℕ :=
  (List.range 48).foldl (fun acc _ =>
    let n := acc.length
    let s0 := (rotr32 (acc.getD (n - 15) 0) 7) ^^^ (rotr32 (acc.getD (n - 15) 0) 18) ^^^
      ((acc.getD (n - 15) 0) >>> 3)
    let s1 := (rotr32 (acc.getD (n - 2) 0) 17) ^^^ (rotr32 (acc.getD (n - 2) 0) 19) ^^^
      ((acc.getD (n - 2) 0) >>> 10)
    acc ++ [(acc.getD (n - 16) 0 + s0 + acc.getD (n - 7) 0 + s1) % w32]) ws

/-- One SHA-256 round on the eight-register state. -/
def sha256Round (st : List ℕ) (kw : ℕ × ℕ) : List ℕ :=
  match st with
  | [a, b, c, d, e, f, g, h] =>
    let S1 := (rotr32 e 6) ^^^ (rotr32 e 11) ^^^ (rotr32 e 25)
    let ch := (e &&& f) ^^^ ((e ^^^ (w32 - 1)) &&& g)
    let temp1 := (h + S1 + ch + kw.1 + kw.2) % w32
    let S0 := (rotr32 a 2) ^^^ (rotr32 a 13) ^^^ (rotr32 a 22)
    let maj := (a &&& b) ^^^ (a &&& c) ^^^ (b &&& c)
    let temp2 := (S0 + maj) % w32
    [(temp1 + temp2) % w32, a, b, c, (d + temp1) % w32, e, f, g]
  | st => st

/-- SHA-256 compression of one 64-byte block into the running hash value. -/
def sha256Compress (h : List ℕ) (block : List ℕ) : List ℕ :=
  let ws := sha256Extend (blockWords block)
  let fin := (sha256K.zip ws).foldl sha256Round h
  (h.zip fin).map (fun p => (p.1 + p.2) % w32)

/-- The 32-byte SHA-256 digest of a byte message. -/
def sha256Bytes (msg : List ℕ) : List ℕ :=
  let padded := shaPad msg
  (((blocks64 padded.length padded).foldl sha256Compress sha256Init).map bytesOfWord32).flatten

/-! ### SHA-1 (inside `uuid.uuid5`) -/

/-- The SHA-1 initial hash value. -/
def sha1Init : List ℕ := [1732584193, 4023233417, 2562383102, 271733878, 3285377520]

/-- Extend sixteen message-schedule words to eighty. -/
def sha1Extend (ws : List ℕ) : List ℕ :=
  (List.range 64).foldl (fun acc _ =>
    let n := acc.length
    acc ++ [rotl32 ((acc.getD (n - 3) 0) ^^^ (acc.getD (n - 8) 0) ^^^
      (acc.getD (n - 14) 0) ^^^ (acc.getD (n - 16) 0)) 1]) ws

/-- One SHA-1 round on the five-register state. -/
def sha1Round (st : List ℕ) (iw : ℕ × ℕ) : List ℕ :=
  match st with
  | [a, b, c, d, e] =>
    let i := iw.1
    let f :=
      if i < 20 then (b &&& c) ||| ((b ^^^ (w32 - 1)) &&& d)
      else if i < 40 then b ^^^ c ^^^ d
      else if i < 60 then (b &&& c) ||| (b &&& d) ||| (c &&& d)
      else b ^^^ c ^^^ d
    let k :=
      if i < 20 then 0x5a827999
      else if i < 40 then 0x6ed9eba1
      else if i < 60 then 0x8f1bbcdc
      else 0xca62c1d6
    [(rotl32 a 5 + f + e + k + iw.2) % w32, a, rotl32 b 30, c, d]
  | st => st

/-- SHA-1 compression of one 64-byte block into the running hash value. -/
def sha1Compress (h : List ℕ) (block : List ℕ) : List ℕ :=
  let ws := sha1Extend (blockWords block)
  let fin := ws.enum.foldl sha1Round h
  (h.zip fin).map (fun p => (p.1 + p.2) % w32)

/-- The 20-byte SHA-1 digest of a byte message. -/
def sha1Bytes (msg : List ℕ) : List ℕ :=
  let padded := shaPad msg
  (((blocks64 padded.length padded).foldl sha1Compress sha1Init).map bytesOfWord32).flatten

/-! ### UUID version 5 and the chunk id -/

/-- The sixteen bytes of `uuid.NAMESPACE_DNS`. -/
def NAMESPACE_DNS : List ℕ :=
  [0x6b, 0xa7, 0xb8, 0x10, 0x9d, 0xad, 0x11, 0xd1,
   0x80, 0xb4, 0x00, 0xc0, 0x4f, 0xd4, 0x30, 0xc8]

/-- The 128-bit integer of `uuid.uuid5(namespace, name)`: the first sixteen
bytes of the SHA-1 digest of the namespace bytes followed by the encoded
name, with the variant and version bits forced exactly as CPython forces
them on the integer (the complements are taken within 128 bits, which
agrees with the unbounded two-complement arithmetic of Python here because
the integer is below `2 ^ 128`). -/
def uuid5Int (ns : List ℕ) (name : String) : ℕ :=
  let digest := sha1Bytes (ns ++ strBytes name)
  let x0 := fromBytesBE (digest.take 16)
  let x1 := x0 &&& ((2 ^ 128 - 1) ^^^ (0xc000 <<< 48))
  let x2 := x1 ||| (0x8000 <<< 48)
  let x3 := x2 &&& ((2 ^ 128 - 1) ^^^ (0xf000 <<< 64))
  x3 ||| (5 <<< 76)

/-- `str(uuid.UUID(int=n))`: thirty-two lowercase hex digits in groups of
8-4-4-4-12 separated by dashes. -/
def uuidFormat (n : ℕ) : String :=
  let t := toHexFixed 32 n
  String.mk (t.take 8 ++ '-' :: ((t.drop 8).take 4) ++ '-' :: ((t.drop 12).take 4) ++
    '-' :: ((t.drop 16).take 4) ++ '-' :: t.drop 20)

/-- The UUIDv5 name string of chunk `i`, Python `f"{file_hash}_{i}"`. -/
def chunk_name (file_hash : String) (i : ℕ) : String :=
  file_hash ++ "_" ++ toString i

/-- `chunk_id = str(uuid.uuid5(uuid.NAMESPACE_DNS, f"{file_hash}_{i}"))`. -/
def chunk_id (file_hash : String) (i : ℕ) : String :=
  uuidFormat (uuid5Int NAMESPACE_DNS (chunk_name file_hash i))

/-- `compute_file_hash`: the SHA-256 hex digest of the raw file bytes. -/
def compute_file_hash (contents : List ℕ) : String :=
  String.mk (((sha256Bytes contents).map (fun b => toHexFixed 2 b)).flatten)

/-! ### BM25SparseEncoder -/

namespace BM25SparseEncoder

/-- Membership in the regex character class `[a-z0-9]`. -/
def isTokenChar (c : Char) : Bool :=
  ('a' ≤ c && c ≤ 'z') || ('0' ≤ c && c ≤ '9')

/-- Maximal runs of token characters: the matches of `\b[a-z0-9]+\b` in
left-to-right order. The fuel argument (instantiated with the length)
keeps the recursion structural. -/
def tokenRuns : ℕ → List Char → List (List Char)
  | 0, _ => []
  | _, [] => []
  | fuel + 1, c :: cs =>
    if isTokenChar c then
      (c :: cs.takeWhile isTokenChar) :: tokenRuns fuel (cs.dropWhile isTokenChar)
    else
      tokenRuns fuel cs

/-- `_tokenize`: lowercase, extract alphanumeric word tokens, and drop
tokens of length at most one. -/
def tokenize (text : String) : List String :=
  let lowered := text.data.map Char.toLower
  ((tokenRuns lowered.length lowered).map String.mk).filter (fun t => 1 < t.length)

/-- `_hash_token`: SHA-256 of the encoded token, first four digest bytes
little-endian, reduced modulo the vocabulary size. -/
def hash_token (vocab_size : ℕ) (token : String) : ℕ :=
  fromBytesLE ((sha256Bytes (strBytes token)).take 4) % vocab_size

/-- The mutable attributes of one `BM25SparseEncoder` instance. -/
structure State where
  vocab_size : ℕ
  k1 : ℚ
  b : ℚ
  doc_count : ℕ
  doc_freqs : ℕ → ℕ
  avg_doc_len : ℚ
  total_doc_len : ℕ

/-- `__init__(vocab_size=30000)`: `k1 = 1.5`, `b = 0.75`, empty statistics. -/
def init (vocab_size : ℕ := 30000) : State :=
  { vocab_size := vocab_size, k1 := 3 / 2, b := 3 / 4, doc_count := 0,
    doc_freqs := fun _ => 0, avg_doc_len := 0, total_doc_len := 0 }

/-- The body of the `fit_batch` loop for a single text: bump the document
count and the total length, and bump the document frequency of each
distinct hashed index present in the text. -/
def fitDoc (s : State) (text : String) : State :=
  let tokens := tokenize text
  let uniq := (tokens.map (hash_token s.vocab_size)).dedup
  { s with doc_count := s.doc_count + 1,
           total_doc_len := s.total_doc_len + tokens.length,
           doc_freqs := fun i => if i ∈ uniq then s.doc_freqs i + 1 else s.doc_freqs i }

/-- `fit_batch`: accumulate the corpus statistics over a batch of texts,
then recompute the average document length when any document was seen. -/
def fit_batch (s : State) (texts : List String) : State :=
  let s1 := texts.foldl fitDoc s
  if 0 < s1.doc_count then
    { s1 with avg_doc_len := (s1.total_doc_len : ℚ) / (s1.doc_count : ℚ) }
  else s1

/-- The BM25 denominator `tf + k1 * (1 - b + b * doc_len / max(avg_doc_len, 1))`. -/
def bm25_denom (k1 b avg : ℚ) (doc_len tf : ℕ) : ℚ :=
  (tf : ℚ) + k1 * (1 - b + b * (doc_len : ℚ) / max avg 1)

/-- The BM25 term-frequency component `tf * (k1 + 1) / (tf + k1 * (...))`
computed in `encode`. -/
def tf_component (k1 b avg : ℚ) (doc_len tf : ℕ) : ℚ :=
  (tf : ℚ) * (k1 + 1) / bm25_denom k1 b avg doc_len tf

/-- The `(hashed index, raw term frequency)` pairs of a text: one pair per
distinct hashed index, carrying its occurrence count (the items of the
Python `Counter`; the iteration order is immaterial because `encode`
filters the pairs pointwise and then sorts them by index, and the
distinct keys leave no ties). -/
def encodeEntries (vocab_size : ℕ) (text : String) : List (ℕ × ℕ) :=
  let hs := (tokenize text).map (hash_token vocab_size)
  hs.dedup.map (fun i => (i, hs.count i))

/-- The weight of one term entry: the term-frequency component times the
smoothed inverse document frequency. -/
noncomputable def termScore (s : State) (doc_len : ℕ) (e : ℕ × ℕ) : ℝ :=
  let tf_score := tf_component s.k1 s.b s.avg_doc_len doc_len e.2
  let df := s.doc_freqs e.1
  let idf : ℚ := max 0 (((s.doc_count : ℚ) - (df : ℚ) + 1 / 2) / ((df : ℚ) + 1 / 2))
  let idfSmoothed : ℝ := if 0 < idf then Real.sqrt ((idf : ℝ) + 1) else (idf : ℝ)
  (tf_score : ℝ) * idfSmoothed

open scoped Classical in
/-- The `(index, weight)` pairs kept by `encode`: one per term entry whose
weight is strictly positive, the document length being the token count of
the text. -/
noncomputable def scorePairs (s : State) (text : String) : List (ℕ × ℝ) :=
  (encodeEntries s.vocab_size text).filterMap (fun e =>
    let score := termScore s (tokenize text).length e
    if 0 < score then some (e.1, score) else none)

/-- The comparison `key=lambda x: x[0]` of the final sort in `encode`. -/
def byIndexLE (p q : ℕ × ℝ) : Prop := p.1 ≤ q.1

instance : DecidableRel byIndexLE := fun p q => Nat.decLe p.1 q.1

instance : IsTotal (ℕ × ℝ) byIndexLE := ⟨fun a b => Nat.le_total a.1 b.1⟩

instance : IsTrans (ℕ × ℝ) byIndexLE := ⟨fun _ _ _ => Nat.le_trans⟩

/-- `encode`: the sparse BM25 vector `(indices, values)` of a text, with
strictly positive weights only, sorted ascending by index. -/
noncomputable def encode (s : State) (text : String) : List ℕ × List ℝ :=
  if (tokenize text).isEmpty then ([], [])
  else
    let sorted := List.insertionSort byIndexLE (scorePairs s text)
    (sorted.map Prod.fst, sorted.map Prod.snd)

/-- `encode_query` is identical to `encode`: there is deliberately no
separate query-time weighting scheme. -/
noncomputable def encode_query (s : State) (text : String) : List ℕ × List ℝ :=
  encode s text

end BM25SparseEncoder

/-! ### RAGVectorStore: the search query plan and the point operations -/

/-- An exact-match payload filter condition. -/
structure FieldCondition where
  key : String
  value : String
deriving DecidableEq

/-- A conjunctive (`must`) filter. -/
structure QueryFilter where
  must : List FieldCondition
deriving DecidableEq

/-- The fusion mode of a hybrid query. -/
inductive FusionMode where
  | rrf
deriving DecidableEq

/-- One prefetch branch of a hybrid query: either a dense query vector or a
sparse query vector, the named vector field it runs against, the shared
filter, and the candidate limit. -/
structure PrefetchSpec where
  denseQuery : Option (List ℚ)
  sparseQuery : Option (List ℕ × List ℝ)
  vectorName : String
  filter : Option QueryFilter
  limit : ℕ

/-- The request `search` issues to the vector store: a fused hybrid query
(which carries no score threshold) or a dense-only query with a hard
score threshold. -/
inductive QueryPlan where
  | hybrid (prefetch : List PrefetchSpec) (fusion : FusionMode) (limit : ℕ)
  | denseOnly (query : List ℚ) (vectorName : String) (filter : Option QueryFilter)
      (limit : ℕ) (score_threshold : ℚ)

def DENSE_VECTOR_NAME : String := "dense"

def SPARSE_VECTOR_NAME : String := "sparse"

/-- The category/filename filter `search` builds: a conjunction of the
present conditions, or no filter at all when both are absent. -/
def searchFilter (category filename : Option String) : Option QueryFilter :=
  let must_conditions :=
    (match category with | some c => [FieldCondition.mk "category" c] | none => []) ++
    (match filename with | some f => [FieldCondition.mk "filename" f] | none => [])
  if must_conditions.isEmpty then none else some (QueryFilter.mk must_conditions)

/-- `RAGVectorStore.search`: build the category/filename filter, then branch
on the sparse query exactly as the source does (`if sparse_query and
sparse_query[0] and sparse_query[1]`): a hybrid RRF query over two
prefetches of `max(limit * 4, 20)` candidates each, or a dense-only query
with `min_score` as `score_threshold`. -/
def search (query_embedding : List ℚ) (sparse_query : Option (List ℕ × List ℝ))
    (category filename : Option String) (limit : ℕ) (min_score : ℚ) : QueryPlan :=
  let query_filter := searchFilter category filename
  match sparse_query with
  | some (indices, values) =>
    if !indices.isEmpty && !values.isEmpty then
      let prefetch_limit := max (limit * 4) 20
      QueryPlan.hybrid
        [{ denseQuery := some query_embedding, sparseQuery := none,
           vectorName := DENSE_VECTOR_NAME, filter := query_filter, limit := prefetch_limit },
         { denseQuery := none, sparseQuery := some (indices, values),
           vectorName := SPARSE_VECTOR_NAME, filter := query_filter, limit := prefetch_limit }]
        FusionMode.rrf limit
    else
      QueryPlan.denseOnly query_embedding DENSE_VECTOR_NAME query_filter limit min_score
  | none => QueryPlan.denseOnly query_embedding DENSE_VECTOR_NAME query_filter limit min_score

/-- One stored point: chunk id, payload, dense vector, optional sparse vector. -/
structure RagPoint where
  id : String
  category : String
  filename : String
  chunk_index : ℕ
  content : String
  dense : List ℚ
  sparse : Option (List ℕ × List ℝ)

/-- `delete_by_filename`: remove every point matching both the category and
the filename exactly. -/
def delete_by_filename (points : List RagPoint) (category filename : String) : List RagPoint :=
  points.filter (fun p => !(p.category == category && p.filename == filename))

/-- Upsert of a single point: the store replaces any point with the same id. -/
def upsertPoint (points : List RagPoint) (p : RagPoint) : List RagPoint :=
  points.filter (fun q => q.id != p.id) ++ [p]

/-- `upsert_chunks`: upsert the whole chunk batch of one document. -/
def upsert_chunks (points : List RagPoint) (batch : List RagPoint) : List RagPoint :=
  batch.foldl upsertPoint points

/-! ### IndexTracker (the SQLite ledger) -/

namespace IndexTracker

/-- One row of the `indexed_documents` table; `file_hash` is the primary key. -/
structure Row where
  file_hash : String
  path : String
  category : String
  filename : String
  chunk_count : ℕ
  indexed_at : String
deriving DecidableEq

/-- The connection state: `none` before `initialize` has run, otherwise the
rows of the table. -/
abbrev Conn := Option (List Row)

/-- `is_indexed`: `False` without a connection, otherwise a primary-key
lookup on the file hash. -/
def is_indexed (conn : Conn) (file_hash : String) : Bool :=
  match conn with
  | none => false
  | some rows => rows.any (fun r => r.file_hash == file_hash)

/-- `mark_indexed`: silently dropped without a connection, otherwise
`INSERT OR REPLACE` keyed on `file_hash`, stamping `indexed_at` with the
current time. -/
def mark_indexed (conn : Conn) (file_hash path category filename : String)
    (chunk_count : ℕ) (now : String) : Conn :=
  match conn with
  | none => none
  | some rows =>
    some (rows.filter (fun r => r.file_hash != file_hash) ++
      [{ file_hash := file_hash, path := path, category := category,
         filename := filename, chunk_count := chunk_count, indexed_at := now }])

/-- `remove_by_path`: silently dropped without a connection, otherwise
`DELETE FROM indexed_documents WHERE path = ?`. -/
def remove_by_path (conn : Conn) (path : String) : Conn :=
  match conn with
  | none => none
  | some rows => some (rows.filter (fun r => r.path != path))

/-- `get_documents_by_category`: the empty list without a connection. -/
def get_documents_by_category (conn : Conn) (category : String) :
    List (String × ℕ × String) :=
  match conn with
  | none => []
  | some rows => (rows.filter (fun r => r.category == category)).map
      (fun r => (r.filename, r.chunk_count, r.indexed_at))

/-- `get_all_categories`: the empty map without a connection, otherwise the
category names with their row counts (`GROUP BY category`). -/
def get_all_categories (conn : Conn) : List (String × ℕ) :=
  match conn with
  | none => []
  | some rows => ((rows.map (fun r => r.category)).dedup).map
      (fun c => (c, rows.countP (fun r => r.category == c)))

end IndexTracker

/-! ### The indexing orchestration (`_index_document`, `_index_category`) -/

/-- The shared mutable state the indexer touches: the encoder statistics,
the vector-store points, and the ledger connection. -/
structure World where
  encoder : BM25SparseEncoder.State
  points : List RagPoint
  tracker : IndexTracker.Conn

/-- The externally visible operations `_index_document` can issue, in order. -/
inductive Op where
  | delete_by_filename (category filename : String)
  | remove_by_path (path : String)
  | fit_batch (batch_size : ℕ)
  | upsert (ids : List String)
  | mark_indexed (file_hash : String)
deriving DecidableEq

/-- The result of one `_index_document` call: the final shared state, the
operations issued, and the returned chunk count or the raised error. -/
structure Outcome where
  world : World
  log : List Op
  result : Except String ℕ

/-- The external collaborators: the file system, the extractor/chunker
(which may raise), the embedder (which may raise after its retries), and
the wall clock read by `mark_indexed`. -/
structure Oracles where
  read_file : String → List ℕ
  extract_and_chunk : String → Except String (List String)
  embed_batch : List String → Except String (List (List ℚ))
  now : String

/-- `path.name`: the final component of the path. -/
def pathName (path : String) : String := (path.splitOn "/").getLastD ""

/-- The chunk payloads built by `_index_document`: deterministic ids from
the file hash and the ordinal, with the sparse vector omitted when its
index or value list is empty. -/
def buildPoints (file_hash category filename : String) (texts : List String)
    (embeds : List (List ℚ)) (sparseVecs : List (List ℕ × List ℝ)) : List RagPoint :=
  ((texts.enum.zip embeds).zip sparseVecs).map (fun x =>
    { id := chunk_id file_hash x.1.1.1,
      category := category, filename := filename,
      chunk_index := x.1.1.1, content := x.1.1.2,
      dense := x.1.2,
      sparse := if !x.2.1.isEmpty && !x.2.2.isEmpty then some x.2 else none })

/-- `_index_document`: hash the file, stop when the hash is already in the
ledger and `force` is off, otherwise purge the previous generation,
extract (stopping with zero chunks and no ledger write when extraction
yields nothing), update the corpus statistics, encode, embed, upsert the
chunk batch, and record the ledger row last. -/
noncomputable def index_document (o : Oracles) (w : World) (path category : String)
    (force : Bool) : Outcome :=
  let file_hash := compute_file_hash (o.read_file path)
  let filename := pathName path
  if !force && IndexTracker.is_indexed w.tracker file_hash then
    { world := w, log := [], result := .ok 0 }
  else
    let points1 := delete_by_filename w.points category filename
    let tracker1 := IndexTracker.remove_by_path w.tracker path
    let log1 := [Op.delete_by_filename category filename, Op.remove_by_path path]
    match o.extract_and_chunk path with
    | .error e => { world := ⟨w.encoder, points1, tracker1⟩, log := log1, result := .error e }
    | .ok chunks_text =>
      if chunks_text.isEmpty then
        { world := ⟨w.encoder, points1, tracker1⟩, log := log1, result := .ok 0 }
      else
        let encoder1 := BM25SparseEncoder.fit_batch w.encoder chunks_text
        let sparse_vectors := chunks_text.map (BM25SparseEncoder.encode encoder1)
        let log2 := log1 ++ [Op.fit_batch chunks_text.length]
        match o.embed_batch chunks_text with
        | .error e => { world := ⟨encoder1, points1, tracker1⟩, log := log2, result := .error e }
        | .ok chunk_embeddings =>
          let batch := buildPoints file_hash category filename chunks_text
            chunk_embeddings sparse_vectors
          let points2 := upsert_chunks points1 batch
          let tracker2 := IndexTracker.mark_indexed tracker1 file_hash path category
            filename chunks_text.length o.now
          { world := ⟨encoder1, points2, tracker2⟩,
            log := log2 ++ [Op.upsert (batch.map (fun p => p.id)), Op.mark_indexed file_hash],
            result := .ok chunks_text.length }

/-- `_index_category`: index every file of the category in order, swallowing
per-document errors (logged and skipped) and accumulating the total
number of newly indexed chunks. -/
noncomputable def index_category (o : Oracles) (w : World) (category : String)
    (paths : List String) (force : Bool) : World × ℕ :=
  match paths with
  | [] => (w, 0)
  | p :: rest =>
    let out := index_document o w p category force
    let n := match out.result with | .ok k => k | .error _ => 0
    let r := index_category o out.world category rest force
    (r.1, n + r.2)

/-! ## Theorems -/

/-! ### C9: the uninitialized tracker -/

/-- C9: against an uninitialized tracker (`initialize` never ran, so there
is no database connection), every read returns the empty default and every
write is silently dropped rather than raising: `is_indexed` is false,
`mark_indexed` and `remove_by_path` leave the state unchanged,
`get_documents_by_category` returns the empty list and
`get_all_categories` the empty map. -/
theorem C9_uninitialized_tracker_defaults :
    ∀ (file_hash path category filename now : String) (chunk_count : ℕ),
      IndexTracker.is_indexed (none : IndexTracker.Conn) file_hash = false ∧
      IndexTracker.mark_indexed (none : IndexTracker.Conn) file_hash path category filename
        chunk_count now = none ∧
      IndexTracker.remove_by_path (none : IndexTracker.Conn) path = none ∧
      IndexTracker.get_documents_by_category (none : IndexTracker.Conn) category = [] ∧
      IndexTracker.get_all_categories (none : IndexTracker.Conn) = [] :=
  fun _ _ _ _ _ _ => ⟨rfl, rfl, rfl, rfl, rfl⟩

/-! ### C6: the corpus statistics are never decremented -/

namespace BM25SparseEncoder

lemma fitDoc_stats_le (s : State) (t : String) :
    s.doc_count ≤ (fitDoc s t).doc_count ∧
    s.total_doc_len ≤ (fitDoc s t).total_doc_len ∧
    ∀ i, s.doc_freqs i ≤ (fitDoc s t).doc_freqs i := by
  refine ⟨Nat.le_succ _, Nat.le_add_right _ _, fun i => ?_⟩
  dsimp [fitDoc]
  split <;> simp

lemma foldl_fitDoc_stats_le (texts : List String) :
    ∀ s : State,
      s.doc_count ≤ (texts.foldl fitDoc s).doc_count ∧
      s.total_doc_len ≤ (texts.foldl fitDoc s).total_doc_len ∧
      ∀ i, s.doc_freqs i ≤ (texts.foldl fitDoc s).doc_freqs i := by
  induction texts with
  | nil => exact fun s => ⟨le_rfl, le_rfl, fun _ => le_rfl⟩
  | cons t ts ih =>
    intro s
    obtain ⟨h1, h2, h3⟩ := fitDoc_stats_le s t
    obtain ⟨g1, g2, g3⟩ := ih (fitDoc s t)
    exact ⟨h1.trans g1, h2.trans g2, fun i => (h3 i).trans (g3 i)⟩

end BM25SparseEncoder

/-- C6: no operation on the encoder ever decreases the corpus statistics:
`fit_batch` only increments the document count, the total document length
and every document-frequency entry (`encode` and `encode_query` are pure
reads by construction, and no delete or rollback on the statistics exists
in the interface), so deleting or re-indexing a document never rolls back
its contribution. -/
theorem C6_fit_batch_never_decrements (s : BM25SparseEncoder.State) (texts : List String) :
    s.doc_count ≤ (BM25SparseEncoder.fit_batch s texts).doc_count ∧
    s.total_doc_len ≤ (BM25SparseEncoder.fit_batch s texts).total_doc_len ∧
    ∀ i, s.doc_freqs i ≤ (BM25SparseEncoder.fit_batch s texts).doc_freqs i := by
  obtain ⟨h1, h2, h3⟩ := BM25SparseEncoder.foldl_fitDoc_stats_le texts s
  dsimp [BM25SparseEncoder.fit_batch]
  split <;> exact ⟨h1, h2, h3⟩

/-! ### C4: the search branch structure -/

/-- C4: `search` branches exactly on sparse-query emptiness. With at least
one `(index, value)` pair it issues one hybrid query of two prefetch
retrievals (dense and sparse), each with candidate limit
`max(limit * 4, 20)` and the same category/filename filter, fused by
Reciprocal Rank Fusion, truncated to `limit`, and carrying no score
threshold; with an empty or absent sparse query it issues a dense-only
query with `min_score` as a hard score threshold. -/
theorem C4_search_branching (query_embedding : List ℚ) (indices : List ℕ) (values : List ℝ)
    (category filename : Option String) (limit : ℕ) (min_score : ℚ) :
    (indices ≠ [] → values ≠ [] →
      search query_embedding (some (indices, values)) category filename limit min_score =
        QueryPlan.hybrid
          [{ denseQuery := some query_embedding, sparseQuery := none,
             vectorName := DENSE_VECTOR_NAME, filter := searchFilter category filename,
             limit := max (limit * 4) 20 },
           { denseQuery := none, sparseQuery := some (indices, values),
             vectorName := SPARSE_VECTOR_NAME, filter := searchFilter category filename,
             limit := max (limit * 4) 20 }]
          FusionMode.rrf limit) ∧
    (indices = [] ∨ values = [] →
      search query_embedding (some (indices, values)) category filename limit min_score =
        QueryPlan.denseOnly query_embedding DENSE_VECTOR_NAME (searchFilter category filename)
          limit min_score) ∧
    search query_embedding none category filename limit min_score =
      QueryPlan.denseOnly query_embedding DENSE_VECTOR_NAME (searchFilter category filename)
        limit min_score := by
  refine ⟨fun hi hv => ?_, fun h => ?_, rfl⟩
  · simp [search, hi, hv]
  · rcases h with h | h <;> subst h <;> simp [search]

/-- Witness for C4 at concrete inputs: a one-term sparse query takes the
hybrid branch and an empty one the dense-only branch. -/
theorem C4_witness :
    search [1] (some ([2], [1])) none none 5 (3 / 10) =
      QueryPlan.hybrid
        [{ denseQuery := some [1], sparseQuery := none,
           vectorName := DENSE_VECTOR_NAME, filter := searchFilter none none,
           limit := max (5 * 4) 20 },
         { denseQuery := none, sparseQuery := some ([2], [1]),
           vectorName := SPARSE_VECTOR_NAME, filter := searchFilter none none,
           limit := max (5 * 4) 20 }]
        FusionMode.rrf 5 ∧
    search [1] (some (([] : List ℕ), ([] : List ℝ))) none none 5 (3 / 10) =
      QueryPlan.denseOnly [1] DENSE_VECTOR_NAME (searchFilter none none) 5 (3 / 10) :=
  ⟨(C4_search_branching [1] [2] [1] none none 5 (3 / 10)).1
      (List.cons_ne_nil 2 []) (List.cons_ne_nil 1 []),
   (C4_search_branching [1] [] [] none none 5 (3 / 10)).2.1 (Or.inl rfl)⟩

/-! ### C1: indexing an already-recorded hash is a no-op -/

/-- C1: when the content hash of the file is already recorded in the ledger
and `force` is off, `_index_document` returns 0 and mutates nothing: no
vector-store delete or upsert is issued, no ledger row is touched, and the
corpus statistics are unchanged (the whole shared state is returned as it
was, and the operation log is empty). -/
theorem C1_index_document_noop_when_indexed
    (o : Oracles) (w : World) (path category : String) (force : Bool)
    (hf : force = false)
    (hi : IndexTracker.is_indexed w.tracker (compute_file_hash (o.read_file path)) = true) :
    index_document o w path category force = ⟨w, [], .ok 0⟩ := by
  subst hf
  simp [index_document, hi]

/-- An oracle assembly whose file system is empty and whose extractor
returns no chunks. -/
def oraclesEmpty : Oracles :=
  { read_file := fun _ => [], extract_and_chunk := fun _ => .ok [],
    embed_batch := fun _ => .ok [], now := "t0" }

/-- A world whose ledger already records the hash of the empty file under
path `p`. -/
def worldIndexed : World :=
  ⟨BM25SparseEncoder.init 30000, [],
    some [{ file_hash := compute_file_hash [], path := "p", category := "c",
            filename := "p", chunk_count := 1, indexed_at := "t0" }]⟩

/-- Witness for C1: at a concrete world already holding the content hash,
the call returns the world unchanged, an empty log, and zero chunks. -/
theorem C1_witness :
    index_document oraclesEmpty worldIndexed "p" "c" false = ⟨worldIndexed, [], .ok 0⟩ :=
  C1_index_document_noop_when_indexed oraclesEmpty worldIndexed "p" "c" false rfl
    (by simp [worldIndexed, oraclesEmpty, IndexTracker.is_indexed])

/-! ### C8: empty extraction writes no ledger record and the scan continues -/

lemma is_indexed_remove_by_path_false (conn : IndexTracker.Conn) (path file_hash : String)
    (hc : IndexTracker.is_indexed conn file_hash = false) :
    IndexTracker.is_indexed (IndexTracker.remove_by_path conn path) file_hash = false := by
  cases conn with
  | none => rfl
  | some rows =>
    simp only [IndexTracker.is_indexed, IndexTracker.remove_by_path, List.any_eq_false] at hc ⊢
    exact fun r hr => hc r (List.mem_of_mem_filter hr)

/-- C8: when extraction yields zero chunks, `_index_document` returns 0 and
never reaches `mark_indexed`: the only effects are the purge of the old
generation (vector-store delete and ledger `remove_by_path`), the log
holds no `mark_indexed` operation, the document stays un-indexed (so it is
eligible for automatic retry on the next scan), and the batch scan carries
on with the remaining documents. -/
theorem C8_empty_extraction_skips_ledger
    (o : Oracles) (w : World) (path category : String) (force : Bool)
    (hx : o.extract_and_chunk path = .ok [])
    (hi : IndexTracker.is_indexed w.tracker (compute_file_hash (o.read_file path)) = false) :
    (index_document o w path category force).result = .ok 0 ∧
    (index_document o w path category force).world =
      ⟨w.encoder, delete_by_filename w.points category (pathName path),
        IndexTracker.remove_by_path w.tracker path⟩ ∧
    (index_document o w path category force).log =
      [Op.delete_by_filename category (pathName path), Op.remove_by_path path] ∧
    (∀ h, Op.mark_indexed h ∉ (index_document o w path category force).log) ∧
    IndexTracker.is_indexed (index_document o w path category force).world.tracker
      (compute_file_hash (o.read_file path)) = false ∧
    (∀ rest, index_category o w category (path :: rest) force =
      index_category o (index_document o w path category force).world category rest force) := by
  have hout : index_document o w path category force =
      ⟨⟨w.encoder, delete_by_filename w.points category (pathName path),
        IndexTracker.remove_by_path w.tracker path⟩,
       [Op.delete_by_filename category (pathName path), Op.remove_by_path path], .ok 0⟩ := by
    simp [index_document, hi, hx]
  rw [hout]
  refine ⟨rfl, rfl, rfl, fun h => by simp, is_indexed_remove_by_path_false _ _ _ hi, fun rest => ?_⟩
  rw [index_category, hout]
  simp

/-- A world with an initialized, empty ledger and no points. -/
def worldEmpty : World := ⟨BM25SparseEncoder.init 30000, [], some []⟩

/-! ### C10 and C7: the BM25 arithmetic -/

namespace BM25SparseEncoder

lemma one_le_tf_of_mem_encodeEntries {vocab_size : ℕ} {text : String} {p : ℕ × ℕ}
    (hp : p ∈ encodeEntries vocab_size text) : 1 ≤ p.2 := by
  dsimp [encodeEntries] at hp
  obtain ⟨i, hi, rfl⟩ := List.mem_map.mp hp
  exact List.count_pos_iff.mpr (List.mem_dedup.mp hi)

lemma bm25_denom_pos (avg : ℚ) (doc_len tf : ℕ) (htf : 1 ≤ tf) :
    0 < bm25_denom (3 / 2) (3 / 4) avg doc_len tf := by
  have hmax : (1 : ℚ) ≤ max avg 1 := le_max_right _ _
  have hX : 0 ≤ (3 : ℚ) / 4 * (doc_len : ℚ) / max avg 1 :=
    div_nonneg (by positivity) (by linarith)
  have htfq : (1 : ℚ) ≤ (tf : ℚ) := by exact_mod_cast htf
  dsimp [bm25_denom]
  nlinarith [hX, htfq]

end BM25SparseEncoder

/-- C10: for every text and every encoder state with the configured
parameters (`k1 = 1.5`, `b = 0.75`) and a nonnegative average document
length, the BM25 denominator computed in `encode` is strictly positive for
every term entry — the raw term frequency of an entry is at least 1 and
the `max(avg_doc_len, 1)` guard bounds the division — so `encode` never
divides by zero, including before any `fit_batch` call, when the average
document length is still 0. -/
theorem C10_bm25_denominator_positive (s : BM25SparseEncoder.State) (text : String)
    (hk : s.k1 = 3 / 2) (hb : s.b = 3 / 4) (ha : 0 ≤ s.avg_doc_len) :
    ∀ p ∈ BM25SparseEncoder.encodeEntries s.vocab_size text,
      0 < BM25SparseEncoder.bm25_denom s.k1 s.b s.avg_doc_len
        (BM25SparseEncoder.tokenize text).length p.2 := by
  intro p hp
  rw [hk, hb]
  exact BM25SparseEncoder.bm25_denom_pos _ _ _
    (BM25SparseEncoder.one_le_tf_of_mem_encodeEntries hp)

/-- Witness for C10: the freshly initialized encoder (average document
length 0) on the one-token text `"hello"`. -/
theorem C10_witness :
    0 < BM25SparseEncoder.bm25_denom (BM25SparseEncoder.init 30000).k1
      (BM25SparseEncoder.init 30000).b (BM25SparseEncoder.init 30000).avg_doc_len
      (BM25SparseEncoder.tokenize "hello").length
      (BM25SparseEncoder.hash_token 30000 "hello", 1).2 :=
  C10_bm25_denominator_positive (BM25SparseEncoder.init 30000) "hello" rfl rfl le_rfl
    (BM25SparseEncoder.hash_token 30000 "hello", 1)
    (by simp [BM25SparseEncoder.encodeEntries, BM25SparseEncoder.init,
      show BM25SparseEncoder.tokenize "hello" = ["hello"] by decide])

/-- C7: holding the average document length (and with it the document
count) fixed, the BM25 term-frequency component computed in `encode` with
the configured `k1 = 1.5` and `b = 0.75` is monotone non-decreasing in the
raw term frequency, for every frequency at least 1 and every document
length at least the frequency. -/
theorem C7_tf_component_monotone (avg : ℚ) (doc_len tf1 tf2 : ℕ)
    (h1 : 1 ≤ tf1) (h12 : tf1 ≤ tf2) (h2L : tf2 ≤ doc_len) :
    BM25SparseEncoder.tf_component (3 / 2) (3 / 4) avg doc_len tf1 ≤
      BM25SparseEncoder.tf_component (3 / 2) (3 / 4) avg doc_len tf2 := by
  have hd1 := BM25SparseEncoder.bm25_denom_pos avg doc_len tf1 h1
  have hd2 := BM25SparseEncoder.bm25_denom_pos avg doc_len tf2 (h1.trans h12)
  have hmax : (1 : ℚ) ≤ max avg 1 := le_max_right _ _
  have hX : 0 ≤ (3 : ℚ) / 4 * (doc_len : ℚ) / max avg 1 :=
    div_nonneg (by positivity) (by linarith)
  have hC : 0 ≤ (3 : ℚ) / 2 * (1 - 3 / 4 + 3 / 4 * (doc_len : ℚ) / max avg 1) := by
    nlinarith [hX]
  have h12q : (tf1 : ℚ) ≤ (tf2 : ℚ) := by exact_mod_cast h12
  have h1q : (1 : ℚ) ≤ (tf1 : ℚ) := by exact_mod_cast h1
  dsimp [BM25SparseEncoder.tf_component] at *
  rw [div_le_div_iff₀ hd1 hd2]
  dsimp [BM25SparseEncoder.bm25_denom] at *
  nlinarith [mul_le_mul_of_nonneg_right h12q hC]

/-- Witness for C7: frequency 1 versus 2 in a document of length 3 with
average document length 0. -/
theorem C7_witness :
    BM25SparseEncoder.tf_component (3 / 2) (3 / 4) 0 3 1 ≤
      BM25SparseEncoder.tf_component (3 / 2) (3 / 4) 0 3 2 :=
  C7_tf_component_monotone 0 3 1 2 (by decide) (by decide) (by decide)

/-! ### C2: well-formedness of every encoded sparse vector -/

namespace BM25SparseEncoder

lemma pairwise_filterMap_keys {l : List (ℕ × ℕ)} (f : ℕ × ℕ → Option (ℕ × ℝ))
    (hf : ∀ a p, f a = some p → p.1 = a.1)
    (hl : l.Pairwise (fun a b => a.1 ≠ b.1)) :
    (l.filterMap f).Pairwise (fun p q => p.1 ≠ q.1) := by
  induction hl with
  | nil => simp
  | @cons a l2 ha _ ih =>
    rw [List.filterMap_cons]
    cases hfa : f a with
    | none => exact ih
    | some p =>
      refine List.Pairwise.cons (fun q hq => ?_) ih
      obtain ⟨b, hb, hfb⟩ := List.mem_filterMap.mp hq
      rw [hf a p hfa, hf b q hfb]
      exact ha b hb

lemma encodeEntries_key_pairwise_ne (vocab_size : ℕ) (text : String) :
    (encodeEntries vocab_size text).Pairwise (fun a b => a.1 ≠ b.1) := by
  dsimp [encodeEntries]
  rw [List.pairwise_map]
  simpa using List.nodup_dedup _

lemma scorePairs_key_pairwise_ne (s : State) (text : String) :
    (scorePairs s text).Pairwise (fun p q => p.1 ≠ q.1) := by
  dsimp [scorePairs]
  refine pairwise_filterMap_keys _ (fun a p hp => ?_)
    (encodeEntries_key_pairwise_ne s.vocab_size text)
  split at hp
  · obtain rfl := Option.some.inj hp
    rfl
  · exact absurd hp (by simp)

lemma scorePairs_pos (s : State) (text : String) :
    ∀ p ∈ scorePairs s text, (0 : ℝ) < p.2 := by
  intro p hp
  obtain ⟨e, _, hfe⟩ := List.mem_filterMap.mp hp
  dsimp at hfe
  split at hfe
  · obtain rfl := Option.some.inj hfe
    assumption
  · exact absurd hfe (by simp)

end BM25SparseEncoder

/-- C2: for every input text and every encoder state, `encode` returns a
pair `(indices, values)` of equal length whose indices are strictly
increasing (hence no index repeats) and whose values are all strictly
greater than 0. -/
theorem C2_encode_well_formed (s : BM25SparseEncoder.State) (text : String) :
    (BM25SparseEncoder.encode s text).1.length = (BM25SparseEncoder.encode s text).2.length ∧
    List.Pairwise (· < ·) (BM25SparseEncoder.encode s text).1 ∧
    ∀ v ∈ (BM25SparseEncoder.encode s text).2, 0 < v := by
  dsimp [BM25SparseEncoder.encode]
  split
  · exact ⟨rfl, by simp, by simp⟩
  · have hsort : (List.insertionSort BM25SparseEncoder.byIndexLE (BM25SparseEncoder.scorePairs s text)).Pairwise
        BM25SparseEncoder.byIndexLE := List.sorted_insertionSort BM25SparseEncoder.byIndexLE _
    have hperm : List.Perm
        (List.insertionSort BM25SparseEncoder.byIndexLE (BM25SparseEncoder.scorePairs s text))
        (BM25SparseEncoder.scorePairs s text) :=
      List.perm_insertionSort BM25SparseEncoder.byIndexLE _
    have hne : (List.insertionSort BM25SparseEncoder.byIndexLE (BM25SparseEncoder.scorePairs s text)).Pairwise
        (fun p q => p.1 ≠ q.1) :=
      (hperm.pairwise_iff (fun h => h.symm)).mpr
        (BM25SparseEncoder.scorePairs_key_pairwise_ne s text)
    refine ⟨by simp, ?_, ?_⟩
    · rw [List.pairwise_map]
      exact (hsort.and hne).imp (fun h => lt_of_le_of_ne h.1 h.2)
    · intro v hv
      obtain ⟨p, hp, rfl⟩ := List.mem_map.mp hv
      exact BM25SparseEncoder.scorePairs_pos s text p (hperm.mem_iff.mp hp)

/-! ### C5: chunk-id determinism and the limits of chunk-id disjointness -/

/-- The sixteen lowercase hex digit characters. -/
def hexChars : List Char := "0123456789abcdef".data

lemma toHexFixed_length (k : ℕ) : ∀ n, (toHexFixed k n).length = k := by
  induction k with
  | zero => intro n; rfl
  | succ k ih => intro n; simp [toHexFixed, ih]

lemma hexDigitVal_digitChar : ∀ d < 16, hexDigitVal (Nat.digitChar d) = d := by decide

lemma hexVal_append_singleton (xs : List Char) (c : Char) :
    hexVal (xs ++ [c]) = hexVal xs * 16 + hexDigitVal c := by
  simp [hexVal, List.foldl_append]

lemma hexVal_toHexFixed : ∀ (k n : ℕ), n < 16 ^ k → hexVal (toHexFixed k n) = n := by
  intro k
  induction k with
  | zero =>
    intro n hn
    rw [pow_zero] at hn
    simp [toHexFixed, hexVal]
    omega
  | succ k ih =>
    intro n hn
    have hdiv : n / 16 < 16 ^ k := by
      rw [Nat.div_lt_iff_lt_mul (by norm_num : 0 < 16)]
      calc n < 16 ^ (k + 1) := hn
        _ = 16 ^ k * 16 := by rw [pow_succ]
    rw [toHexFixed, hexVal_append_singleton, ih (n / 16) hdiv,
      hexDigitVal_digitChar (n % 16) (Nat.mod_lt _ (by norm_num))]
    omega

lemma digitChar_mem_hexChars : ∀ d < 16, Nat.digitChar d ∈ hexChars := by decide

lemma toHexFixed_chars (k : ℕ) : ∀ n, ∀ c ∈ toHexFixed k n, c ∈ hexChars := by
  induction k with
  | zero => intro n c hc; simp [toHexFixed] at hc
  | succ k ih =>
    intro n c hc
    rw [toHexFixed] at hc
    rcases List.mem_append.mp hc with h | h
    · exact ih _ c h
    · rw [List.mem_singleton] at h
      subst h
      exact digitChar_mem_hexChars _ (Nat.mod_lt _ (by norm_num))

lemma hexChars_ne_dash : ∀ c ∈ hexChars, c ≠ '-' := by decide

/-- Dropping the dashes from a formatted UUID recovers its 32 hex digits,
so `uuidFormat` is injective below `2 ^ 128`. -/
lemma hexVal_filter_uuidFormat {x : ℕ} (hx : x < 2 ^ 128) :
    hexVal ((uuidFormat x).data.filter (fun c => c != '-')) = x := by
  have hx16 : x < 16 ^ 32 := by
    calc x < 2 ^ 128 := hx
      _ = 16 ^ 32 := by norm_num
  have hseg : ∀ l : List Char, l ⊆ toHexFixed 32 x → l.filter (fun c => c != '-') = l := by
    intro l hl
    apply List.filter_eq_self.mpr
    intro c hc
    simp only [bne_iff_ne, ne_eq]
    exact hexChars_ne_dash c (toHexFixed_chars 32 x c (hl hc))
  have e1 : ((toHexFixed 32 x).drop 16).take 4 ++ (toHexFixed 32 x).drop 20 =
      (toHexFixed 32 x).drop 16 := by
    rw [show (toHexFixed 32 x).drop 20 = ((toHexFixed 32 x).drop 16).drop 4 by
      rw [List.drop_drop]]
    exact List.take_append_drop 4 _
  have e2 : ((toHexFixed 32 x).drop 12).take 4 ++ (toHexFixed 32 x).drop 16 =
      (toHexFixed 32 x).drop 12 := by
    rw [show (toHexFixed 32 x).drop 16 = ((toHexFixed 32 x).drop 12).drop 4 by
      rw [List.drop_drop]]
    exact List.take_append_drop 4 _
  have e3 : ((toHexFixed 32 x).drop 8).take 4 ++ (toHexFixed 32 x).drop 12 =
      (toHexFixed 32 x).drop 8 := by
    rw [show (toHexFixed 32 x).drop 12 = ((toHexFixed 32 x).drop 8).drop 4 by
      rw [List.drop_drop]]
    exact List.take_append_drop 4 _
  have hdata : (uuidFormat x).data =
      (toHexFixed 32 x).take 8 ++ '-' :: (((toHexFixed 32 x).drop 8).take 4 ++
        '-' :: (((toHexFixed 32 x).drop 12).take 4 ++
          '-' :: (((toHexFixed 32 x).drop 16).take 4 ++
            '-' :: (toHexFixed 32 x).drop 20))) := by
    simp [uuidFormat]
  rw [hdata]
  rw [List.filter_append, List.filter_cons, List.filter_append, List.filter_cons,
    List.filter_append, List.filter_cons, List.filter_append, List.filter_cons]
  norm_num
  rw [hseg _ (List.take_subset _ _),
    hseg _ ((List.take_subset _ _).trans (List.drop_subset _ _)),
    hseg _ ((List.take_subset _ _).trans (List.drop_subset _ _)),
    hseg _ ((List.take_subset _ _).trans (List.drop_subset _ _)),
    hseg _ (List.drop_subset _ _)]
  rw [e1, e2, e3, List.take_append_drop]
  exact hexVal_toHexFixed 32 x hx16

lemma uuidFormat_inj {m n : ℕ} (hm : m < 2 ^ 128) (hn : n < 2 ^ 128)
    (he : uuidFormat m = uuidFormat n) : m = n := by
  rw [← hexVal_filter_uuidFormat hm, ← hexVal_filter_uuidFormat hn, he]

lemma mem_bytesOfWord32_lt (w : ℕ) : ∀ b ∈ bytesOfWord32 w, b < 256 := by
  intro b hb
  simp only [bytesOfWord32, List.mem_cons, List.not_mem_nil, or_false] at hb
  rcases hb with h | h | h | h <;> subst h <;> exact Nat.mod_lt _ (by norm_num)

lemma sha1Bytes_lt (msg : List ℕ) : ∀ b ∈ sha1Bytes msg, b < 256 := by
  intro b hb
  simp only [sha1Bytes] at hb
  obtain ⟨s, hs, hbs⟩ := List.mem_flatten.mp hb
  obtain ⟨w, _, rfl⟩ := List.mem_map.mp hs
  exact mem_bytesOfWord32_lt w b hbs

lemma fromBytesBE_lt (bs : List ℕ) (hb : ∀ b ∈ bs, b < 256) :
    fromBytesBE bs < 256 ^ bs.length := by
  suffices h : ∀ a, List.foldl (fun x y => x * 256 + y) a bs < (a + 1) * 256 ^ bs.length by
    simpa [fromBytesBE] using h 0
  induction bs with
  | nil => intro a; simp
  | cons b bs ih =>
    intro a
    have hb0 : b < 256 := hb b (List.mem_cons_self _ _)
    have ih2 := ih (fun x hx => hb x (List.mem_cons_of_mem _ hx)) (a * 256 + b)
    simp only [List.foldl_cons, List.length_cons]
    calc List.foldl (fun x y => x * 256 + y) (a * 256 + b) bs
        < (a * 256 + b + 1) * 256 ^ bs.length := ih2
      _ ≤ ((a + 1) * 256) * 256 ^ bs.length :=
          Nat.mul_le_mul_right _ (by omega)
      _ = (a + 1) * 256 ^ (bs.length + 1) := by ring

lemma uuid5Int_lt (ns : List ℕ) (name : String) : uuid5Int ns name < 2 ^ 128 := by
  have h0 : fromBytesBE ((sha1Bytes (ns ++ strBytes name)).take 16) < 2 ^ 128 := by
    have hlen : ((sha1Bytes (ns ++ strBytes name)).take 16).length ≤ 16 := by
      simp [List.length_take]
    calc fromBytesBE ((sha1Bytes (ns ++ strBytes name)).take 16)
        < 256 ^ ((sha1Bytes (ns ++ strBytes name)).take 16).length :=
          fromBytesBE_lt _ (fun b hb => sha1Bytes_lt _ b (List.mem_of_mem_take hb))
      _ ≤ 256 ^ 16 := Nat.pow_le_pow_right (by norm_num) hlen
      _ = 2 ^ 128 := by norm_num
  simp only [uuid5Int]
  refine Nat.or_lt_two_pow ?_ (by norm_num [Nat.shiftLeft_eq])
  refine Nat.lt_of_le_of_lt Nat.and_le_left ?_
  refine Nat.or_lt_two_pow ?_ (by norm_num [Nat.shiftLeft_eq])
  exact Nat.lt_of_le_of_lt Nat.and_le_left h0

lemma append_cons_eq_of_not_mem {c : Char} :
    ∀ {a1 a2 b1 b2 : List Char}, c ∉ a1 → c ∉ a2 →
      a1 ++ c :: b1 = a2 ++ c :: b2 → a1 = a2 ∧ b1 = b2 := by
  intro a1
  induction a1 with
  | nil =>
    intro a2 b1 b2 _ h2 he
    cases a2 with
    | nil => simpa using he
    | cons y a2 =>
      rw [List.nil_append, List.cons_append, List.cons.injEq] at he
      exact absurd (he.1 ▸ List.mem_cons_self y a2) h2
  | cons x a1 ih =>
    intro a2 b1 b2 h1 h2 he
    cases a2 with
    | nil =>
      rw [List.nil_append, List.cons_append, List.cons.injEq] at he
      exact absurd (he.1.symm ▸ List.mem_cons_self x a1) h1
    | cons y a2 =>
      rw [List.cons_append, List.cons_append, List.cons.injEq] at he
      obtain ⟨hxy, hrest⟩ := he
      obtain ⟨ha, hb⟩ := ih (fun hc => h1 (List.mem_cons_of_mem _ hc))
        (fun hc => h2 (List.mem_cons_of_mem _ hc)) hrest
      exact ⟨by rw [hxy, ha], hb⟩

lemma chunk_name_data (h : String) (i : ℕ) :
    (chunk_name h i).data = h.data ++ '_' :: (toString i).data := by
  simp [chunk_name]

lemma chunk_name_hash_ne {h1 h2 : String} (n1 : '_' ∉ h1.data) (n2 : '_' ∉ h2.data)
    (hne : h1 ≠ h2) (i j : ℕ) : chunk_name h1 i ≠ chunk_name h2 j := by
  intro he
  have hd : (chunk_name h1 i).data = (chunk_name h2 j).data := congrArg String.data he
  rw [chunk_name_data, chunk_name_data] at hd
  exact hne (String.ext (append_cons_eq_of_not_mem n1 n2 hd).1)

/-- C5 is false as stated: chunk ids live in the 128-bit UUID space while
64-character hex digests number `2 ^ 256`, so by pigeonhole two distinct
digests already collide at ordinal 0 - the disjointness of the chunk-id
sets of different content hashes cannot hold for every pair of digests. -/
theorem C5_counterexample :
    ∃ h1 h2 : String, h1.length = 64 ∧ h2.length = 64 ∧
      (∀ c ∈ h1.data, c ∈ hexChars) ∧ (∀ c ∈ h2.data, c ∈ hexChars) ∧
      h1 ≠ h2 ∧ chunk_id h1 0 = chunk_id h2 0 := by
  have hcard : Fintype.card (Fin (2 ^ 128)) < Fintype.card (Fin (2 ^ 256)) := by
    rw [Fintype.card_fin, Fintype.card_fin]
    norm_num
  obtain ⟨a, b, hab, hfab⟩ := Fintype.exists_ne_map_eq_of_card_lt
    (fun a : Fin (2 ^ 256) =>
      (⟨uuid5Int NAMESPACE_DNS (chunk_name (String.mk (toHexFixed 64 a.val)) 0),
        uuid5Int_lt _ _⟩ : Fin (2 ^ 128))) hcard
  refine ⟨String.mk (toHexFixed 64 a.val), String.mk (toHexFixed 64 b.val),
    ?_, ?_, ?_, ?_, ?_, ?_⟩
  · exact toHexFixed_length 64 a.val
  · exact toHexFixed_length 64 b.val
  · exact toHexFixed_chars 64 a.val
  · exact toHexFixed_chars 64 b.val
  · intro he
    apply hab
    have hdata : toHexFixed 64 a.val = toHexFixed 64 b.val := congrArg String.data he
    have hv := congrArg hexVal hdata
    rw [hexVal_toHexFixed 64 a.val (by simp [show (16 : ℕ) ^ 64 = 2 ^ 256 by norm_num]),
      hexVal_toHexFixed 64 b.val (by simp [show (16 : ℕ) ^ 64 = 2 ^ 256 by norm_num])] at hv
    exact Fin.ext hv
  · exact congrArg uuidFormat (congrArg Fin.val hfab)

/-- C5 (amended): `chunk_id` is a pure deterministic function of the
content hash and the ordinal (so byte-identical content always reproduces
the same ids), and for two files with different - hence, as hex digests,
underscore-free and distinct - content hashes, every pair of UUIDv5 name
strings differs; the chunk ids of the two generations can therefore
coincide only where the 128-bit truncated-SHA-1 UUIDv5 digest collides on
distinct names, a collision the construction cannot exclude. -/
theorem C5_amended (h1 h2 : String) (i j : ℕ)
    (n1 : '_' ∉ h1.data) (n2 : '_' ∉ h2.data) (hne : h1 ≠ h2) :
    chunk_name h1 i ≠ chunk_name h2 j ∧
    (chunk_id h1 i = chunk_id h2 j →
      uuid5Int NAMESPACE_DNS (chunk_name h1 i) = uuid5Int NAMESPACE_DNS (chunk_name h2 j)) :=
  ⟨chunk_name_hash_ne n1 n2 hne i j,
   fun he => uuidFormat_inj (uuid5Int_lt _ _) (uuid5Int_lt _ _) he⟩

/-- Witness for the amended C5 at the concrete digests `"aa"` and `"bb"`. -/
theorem C5_amended_witness :
    chunk_name "aa" 0 ≠ chunk_name "bb" 0 ∧
    (chunk_id "aa" 0 = chunk_id "bb" 0 →
      uuid5Int NAMESPACE_DNS (chunk_name "aa" 0) =
        uuid5Int NAMESPACE_DNS (chunk_name "bb" 0)) :=
  C5_amended "aa" "bb" 0 0 (by decide) (by decide) (by decide)

/-! ### C3: the fallback trigger is empty tokenization, not zero document
frequency -/

lemma tf_component_one : BM25SparseEncoder.tf_component (3 / 2) (3 / 4) 0 1 1 = 1 := by
  have hmax : max (0 : ℚ) 1 = 1 := max_eq_right (by norm_num)
  rw [BM25SparseEncoder.tf_component, BM25SparseEncoder.bm25_denom, hmax]
  norm_num

lemma termScore_init_pos (i : ℕ) :
    0 < BM25SparseEncoder.termScore (BM25SparseEncoder.init 30000) 1 (i, 1) := by
  dsimp [BM25SparseEncoder.termScore, BM25SparseEncoder.init]
  rw [tf_component_one]
  simp only [Nat.cast_zero]
  have hidf : max (0 : ℚ) ((0 - 0 + 1 / 2) / (0 + 1 / 2)) = 1 := by norm_num
  rw [hidf, if_pos (by norm_num : (0 : ℚ) < 1)]
  simp

/-- C3 is false as the claim states it: a query whose only token hashes to
an index with document frequency 0 still encodes to a NON-empty sparse
vector, because the smoothed idf of an absent term is
`(doc_count - 0 + 0.5) / 0.5 ≥ 1 > 0`; on the freshly initialized encoder
(all document frequencies 0) the query `"hello"` is such a query. -/
theorem C3_counterexample :
    (∀ i, (BM25SparseEncoder.init 30000).doc_freqs i = 0) ∧
    BM25SparseEncoder.encode_query (BM25SparseEncoder.init 30000) "hello" ≠ ([], []) := by
  refine ⟨fun _ => rfl, ?_⟩
  have htok : BM25SparseEncoder.tokenize "hello" = ["hello"] := by decide
  have hent : BM25SparseEncoder.encodeEntries (BM25SparseEncoder.init 30000).vocab_size "hello" =
      [(BM25SparseEncoder.hash_token 30000 "hello", 1)] := by
    simp [BM25SparseEncoder.encodeEntries, BM25SparseEncoder.init, htok]
  have hsp : BM25SparseEncoder.scorePairs (BM25SparseEncoder.init 30000) "hello" =
      [(BM25SparseEncoder.hash_token 30000 "hello",
        BM25SparseEncoder.termScore (BM25SparseEncoder.init 30000) 1
          (BM25SparseEncoder.hash_token 30000 "hello", 1))] := by
    rw [BM25SparseEncoder.scorePairs, hent, htok]
    simp [if_pos (termScore_init_pos _)]
  have henc : BM25SparseEncoder.encode_query (BM25SparseEncoder.init 30000) "hello" =
      ([BM25SparseEncoder.hash_token 30000 "hello"],
       [BM25SparseEncoder.termScore (BM25SparseEncoder.init 30000) 1
          (BM25SparseEncoder.hash_token 30000 "hello", 1)]) := by
    rw [BM25SparseEncoder.encode_query, BM25SparseEncoder.encode]
    rw [if_neg (by rw [htok]; simp)]
    rw [hsp]
    simp [List.insertionSort]
  rw [henc]
  simp

/-- C3 (amended): the condition that actually empties the sparse query and
triggers the fallback is empty tokenization. For every query text whose
tokenization is empty (no alphanumeric token longer than one character),
`encode_query` returns `([], [])`, and `search` on that sparse query takes
the dense-only path in which `min_score` is enforced as a hard score
threshold; a query whose tokens are merely absent from the corpus
statistics instead yields a non-empty sparse vector. -/
theorem C3_amended_empty_tokenization_dense_fallback
    (s : BM25SparseEncoder.State) (text : String)
    (ht : BM25SparseEncoder.tokenize text = []) :
    BM25SparseEncoder.encode_query s text = ([], []) ∧
    ∀ (query_embedding : List ℚ) (category filename : Option String) (limit : ℕ)
      (min_score : ℚ),
      search query_embedding (some (BM25SparseEncoder.encode_query s text)) category filename
          limit min_score =
        QueryPlan.denseOnly query_embedding DENSE_VECTOR_NAME (searchFilter category filename)
          limit min_score := by
  have he : BM25SparseEncoder.encode_query s text = ([], []) := by
    simp [BM25SparseEncoder.encode_query, BM25SparseEncoder.encode, ht]
  refine ⟨he, fun query_embedding category filename limit min_score => ?_⟩
  rw [he]
  simp [search]

/-- Witness for the amended C3: the query `"a"` (its only token is dropped
by tokenization) on the freshly initialized encoder. -/
theorem C3_amended_witness :
    BM25SparseEncoder.encode_query (BM25SparseEncoder.init 30000) "a" = ([], []) ∧
    search [1] (some (BM25SparseEncoder.encode_query (BM25SparseEncoder.init 30000) "a"))
        none none 5 (3 / 10) =
      QueryPlan.denseOnly [1] DENSE_VECTOR_NAME (searchFilter none none) 5 (3 / 10) := by
  obtain ⟨h1, h2⟩ := C3_amended_empty_tokenization_dense_fallback
    (BM25SparseEncoder.init 30000) "a" (by decide)
  exact ⟨h1, h2 [1] none none 5 (3 / 10)⟩

/-- Witness for C8: at a concrete world with an empty ledger and an
extractor returning zero chunks, the call returns 0 and the ledger keeps
no record of the document. -/
theorem C8_witness :
    (index_document oraclesEmpty worldEmpty "p" "c" false).result = .ok 0 ∧
    (∀ h, Op.mark_indexed h ∉ (index_document oraclesEmpty worldEmpty "p" "c" false).log) ∧
    IndexTracker.is_indexed (index_document oraclesEmpty worldEmpty "p" "c" false).world.tracker
      (compute_file_hash (oraclesEmpty.read_file "p")) = false := by
  obtain ⟨h1, _, _, h4, h5, _⟩ :=
    C8_empty_extraction_skips_ledger oraclesEmpty worldEmpty "p" "c" false rfl rfl
  exact ⟨h1, h4, h5⟩

end Rag
